import Mathlib

/-!
Verification of the nanocom telnet stream processor and byte queue.

The telnet engine is embedded from the telnet stream processor source
(functions init_telnet, naws, tx_telnet, rx_telnet, resize_telnet).
The byte queue is embedded from nanocom.c (putq, getq, delq) and the
reconnect reset from doconnect.

Bytes are modeled as Nat values below 256 (the C code works on
unsigned char).  A C function that writes bytes into the target queue is
modeled as returning the list of bytes it emits, in order.  A C function
that mutates the context is modeled as returning the updated context.
-/

namespace Nanocom

-- ASCII characters of interest
def NUL : Nat := 0
def CR : Nat := 13

-- Magic telnet IAC characters, these are also used as states
def SB : Nat := 250
def SE : Nat := 240
def WILL : Nat := 251
def WONT : Nat := 252
def DO : Nat := 253
def DONT : Nat := 254
def IAC : Nat := 255

-- Derived states
def SBX : Nat := 0x100
def SBTT : Nat := 0x200

-- The telnet option codes of interest
def BINARY : Nat := 0
def SECHO : Nat := 1
def SGA : Nat := 3
def TTYPE : Nat := 24
def NAWS : Nat := 31

/-- Telnet session context, from the struct in the telnet stream processor.
The C struct holds a pointer to the target queue; here emitted bytes are
returned by each operation instead.  The termtype pointer becomes an
Option over the byte list of the string (none models a NULL pointer). -/
structure Context where
  binary : Bool
  termtype : Option (List Nat)
  initialized : Bool
  state : Nat
  wascr : Bool
  willnaws : Bool
  donaws : Bool
  hicols : Nat
  locols : Nat
  hirows : Nat
  lorows : Nat
  deriving Repr, DecidableEq

/-- Embedding of init_telnet: calloc zeroes every field, then target,
binary and termtype are set. -/
def init_telnet (binary : Bool) (termtype : Option (List Nat)) : Context :=
  { binary := binary, termtype := termtype, initialized := false,
    state := 0, wascr := false, willnaws := false, donaws := false,
    hicols := 0, locols := 0, hirows := 0, lorows := 0 }

/-- Embedding of naws: the bytes sent to the target queue by the naws
helper (window size sub option, bytes equal to IAC are doubled). -/
def nawsBytes (ctx : Context) : List Nat :=
  [IAC, SB, NAWS]
    ++ (if ctx.hicols = IAC then [IAC, IAC] else [ctx.hicols])
    ++ (if ctx.locols = IAC then [IAC, IAC] else [ctx.locols])
    ++ (if ctx.hirows = IAC then [IAC, IAC] else [ctx.hirows])
    ++ (if ctx.lorows = IAC then [IAC, IAC] else [ctx.lorows])
    ++ [IAC, SE]

/-- Embedding of tx_telnet (non NULL context case): result is the
context after the call (the C body assigns no context field), the bytes
put to the target queue, and the boolean return value. -/
def tx_telnet (ctx : Context) (c : Nat) : Context × List Nat × Bool :=
  if c = IAC then (ctx, [IAC, IAC], false)
  else if !ctx.binary && c = CR then (ctx, [CR, NUL], false)
  else (ctx, [], true)

/-- Bytes of the one time initialization batch sent from the IAC state,
from the putq calls guarded by the initialized flag in rx_telnet. -/
def initBatch (ctx : Context) : List Nat :=
  [IAC, DO, SGA] ++ [IAC, WILL, SGA]
    ++ (if ctx.termtype.isSome then [IAC, WILL, TTYPE] else [])
    ++ [IAC, DO, SECHO]
    ++ (if ctx.binary then [IAC, DO, BINARY] ++ [IAC, WILL, BINARY] else [])
    ++ (if ctx.willnaws then [IAC, WILL, NAWS] else [])

/-- Case 0 (Ground) of the rx_telnet switch. -/
def rxGround (ctx : Context) (c : Nat) : Context × List Nat × Bool :=
  if c = IAC then ({ ctx with state := IAC }, [], false)
  else if !ctx.binary then
    if c = NUL ∧ ctx.wascr then ({ ctx with wascr := false }, [], false)
    else ({ ctx with wascr := decide (c = CR) }, [], true)
  else (ctx, [], true)

/-- Case IAC of the rx_telnet switch, including the one time
initialization batch (skipped for the escaped IAC IAC, which returns
early in the C source). -/
def rxIac (ctx : Context) (c : Nat) : Context × List Nat × Bool :=
  if c = IAC then ({ ctx with state := 0 }, [], true)
  else
    let ctx1 :=
      if c = SB ∨ c = WILL ∨ c = WONT ∨ c = DO ∨ c = DONT then
        { ctx with state := c }
      else { ctx with state := 0 }
    if !ctx.initialized then ({ ctx1 with initialized := true }, initBatch ctx, false)
    else (ctx1, [], false)

/-- Case WILL of the rx_telnet switch. -/
def rxWill (ctx : Context) (c : Nat) : Context × List Nat × Bool :=
  let ctx1 := { ctx with state := 0 }
  if c = SGA ∨ c = SECHO then (ctx1, [], false)
  else if c = BINARY ∧ ctx.binary then (ctx1, [], false)
  else (ctx1, [IAC, DONT, c], false)

/-- Case DO of the rx_telnet switch. -/
def rxDo (ctx : Context) (c : Nat) : Context × List Nat × Bool :=
  let ctx1 := { ctx with state := 0 }
  if c = SGA then (ctx1, [], false)
  else if c = BINARY then
    if ctx.binary then (ctx1, [], false) else (ctx1, [IAC, WONT, c], false)
  else if c = TTYPE then
    if ctx.termtype.isSome then (ctx1, [], false) else (ctx1, [IAC, WONT, c], false)
  else if c = NAWS then
    if ctx.willnaws then ({ ctx1 with donaws := true }, nawsBytes ctx1, false)
    else (ctx1, [IAC, WONT, c], false)
  else (ctx1, [IAC, WONT, c], false)

/-- Case SB of the rx_telnet switch. -/
def rxSb (ctx : Context) (c : Nat) : Context × List Nat × Bool :=
  if c = IAC then ({ ctx with state := SE }, [], false)
  else if c = TTYPE ∧ ctx.termtype.isSome then ({ ctx with state := SBTT }, [], false)
  else ({ ctx with state := SBX }, [], false)

/-- Case SBTT of the rx_telnet switch. -/
def rxSbtt (ctx : Context) (c : Nat) : Context × List Nat × Bool :=
  if c = IAC then ({ ctx with state := SE }, [], false)
  else if c = 1 then
    ({ ctx with state := SBX },
      [IAC, SB, TTYPE, 0] ++ ctx.termtype.getD [] ++ [IAC, SE], false)
  else ({ ctx with state := SBX }, [], false)

/-- Case SBX of the rx_telnet switch. -/
def rxSbx (ctx : Context) (c : Nat) : Context × List Nat × Bool :=
  if c = IAC then ({ ctx with state := SE }, [], false) else (ctx, [], false)

/-- Case SE of the rx_telnet switch. -/
def rxSe (ctx : Context) (c : Nat) : Context × List Nat × Bool :=
  if c = SE then ({ ctx with state := 0 }, [], false)
  else ({ ctx with state := SBX }, [], false)

/-- Embedding of rx_telnet (non NULL context case): result is the
updated context, the bytes put to the target queue, and the boolean
return value (true means the caller should handle the byte).  The
switch on the state field becomes a chain of comparisons against the
state constants; a state outside the switch labels falls through with
no effect, returning false. -/
def rx_telnet (ctx : Context) (c : Nat) : Context × List Nat × Bool :=
  if ctx.state = 0 then rxGround ctx c
  else if ctx.state = IAC then rxIac ctx c
  else if ctx.state = WILL then rxWill ctx c
  else if ctx.state = DO then rxDo ctx c
  else if ctx.state = DONT ∨ ctx.state = WONT then ({ ctx with state := 0 }, [], false)
  else if ctx.state = SB then rxSb ctx c
  else if ctx.state = SBTT then rxSbtt ctx c
  else if ctx.state = SBX then rxSbx ctx c
  else if ctx.state = SE then rxSe ctx c
  else (ctx, [], false)

/-- Embedding of resize_telnet (non NULL context case): clamp the
window size, store it in the context, and return the bytes sent. -/
def resize_telnet (ctx : Context) (cols rows : Int) : Context × List Nat :=
  let c2 : Nat := (if cols < 8 then (8 : Int) else if cols > 65535 then 65535 else cols).toNat
  let r2 : Nat := (if rows < 2 then (2 : Int) else if rows > 65535 then 65535 else rows).toNat
  let ctx1 := { ctx with hicols := c2 / 256, locols := c2 % 256,
                         hirows := r2 / 256, lorows := r2 % 256 }
  if !ctx1.willnaws then
    ({ ctx1 with willnaws := true },
      if ctx1.initialized then [IAC, WILL, NAWS] else [])
  else if ctx1.donaws then (ctx1, nawsBytes ctx1)
  else (ctx1, [])

/-- Run tx_telnet over a byte list, collecting the wire stream: the
bytes the encoder enqueues plus each byte for which it returns true
(which the caller then sends unmodified). -/
def tx_run (ctx : Context) (input : List Nat) : List Nat :=
  match input with
  | [] => []
  | c :: rest =>
    let r := tx_telnet ctx c
    (r.2.1 ++ (if r.2.2 then [c] else [])) ++ tx_run r.1 rest

/-- Run rx_telnet over a byte list: final context, all bytes emitted to
the target queue, and all bytes delivered to the caller (those for
which rx_telnet returned true). -/
def rx_run (ctx : Context) (input : List Nat) : Context × List Nat × List Nat :=
  match input with
  | [] => (ctx, [], [])
  | c :: rest =>
    let r := rx_telnet ctx c
    let rs := rx_run r.1 rest
    (rs.1, r.2.1 ++ rs.2.1, (if r.2.2 then [c] else []) ++ rs.2.2)

/-- Terminal type string vt100 as bytes. -/
def vt100 : List Nat := [118, 116, 49, 48, 48]

/-- Claim C1: on a freshly constructed session (any binary flag, any
terminal type), encoding the byte sequence 0x41 0xFF 0x42 with
tx_telnet and feeding the resulting wire stream through rx_telnet
delivers exactly 0x41 0xFF 0x42 to the caller. -/
theorem c1_roundtrip (b : Bool) (t : Option (List Nat)) :
    (rx_run (init_telnet b t) (tx_run (init_telnet b t) [0x41, 0xFF, 0x42])).2.2
      = [0x41, 0xFF, 0x42] := by
  cases b <;> rfl

/-- Claim C7: in ASCII mode tx_telnet expands CR to CR NUL and returns
false; on a fresh ASCII session, decoding CR NUL delivers exactly CR,
and decoding CR 0x41 delivers CR then 0x41 with nothing swallowed. -/
theorem c7_ascii_cr (ctx : Context) (t : Option (List Nat)) (h : ctx.binary = false) :
    tx_telnet ctx CR = (ctx, [CR, NUL], false) ∧
    (rx_run (init_telnet false t) [CR, NUL]).2.2 = [CR] ∧
    (rx_run (init_telnet false t) [CR, 0x41]).2.2 = [CR, 0x41] := by
  refine ⟨?_, ?_, ?_⟩
  · simp [tx_telnet, h, CR, NUL, IAC]
  · rfl
  · rfl

/-- Witness for c7_ascii_cr at a concrete ASCII session. -/
theorem c7_ascii_cr_witness :
    tx_telnet (init_telnet false none) CR = (init_telnet false none, [CR, NUL], false) ∧
    (rx_run (init_telnet false none) [CR, NUL]).2.2 = [CR] ∧
    (rx_run (init_telnet false none) [CR, 0x41]).2.2 = [CR, 0x41] :=
  c7_ascii_cr (init_telnet false none) none rfl

/-- Claim C10: tx_telnet never modifies the session context; its only
effect is the list of bytes appended to the target queue, so a transmit
call interleaved before a receive call cannot change what the receive
decoder does. -/
theorem c10_tx_pure (ctx : Context) (c : Nat) :
    (tx_telnet ctx c).1 = ctx ∧
    ∀ d : Nat, rx_telnet (tx_telnet ctx c).1 d = rx_telnet ctx d := by
  have h1 : (tx_telnet ctx c).1 = ctx := by
    unfold tx_telnet
    split
    · rfl
    · split <;> rfl
  exact ⟨h1, fun d => by rw [h1]⟩

/-- Counterexample to claim C6: a session in the Iac state (reached by
feeding IAC to a fresh session) delivers the next byte to the caller
when that byte is the escaped IAC (0xFF), even though the state is not
Ground. -/
theorem c6_counterexample :
    ((rx_telnet (init_telnet true (some vt100)) IAC).1.state ≠ 0) ∧
    (rx_telnet (rx_telnet (init_telnet true (some vt100)) IAC).1 IAC).2.2 = true := by
  decide

/-- Claim C6 amended: for every session state other than Ground and
every input byte, the receive decoder swallows the byte, except that in
the Iac state the escaped IAC byte (0xFF) is delivered. -/
theorem c6_amended (ctx : Context) (c : Nat) (h1 : ctx.state ≠ 0)
    (h2 : ¬(ctx.state = IAC ∧ c = IAC)) :
    (rx_telnet ctx c).2.2 = false := by
  unfold rx_telnet
  split_ifs with g0 gI
  · exact absurd g0 h1
  · have hc : c ≠ IAC := fun hcc => h2 ⟨gI, hcc⟩
    simp only [rxIac, if_neg hc]
    split <;> rfl
  · unfold rxWill; split_ifs <;> rfl
  · unfold rxDo; split_ifs <;> rfl
  · rfl
  · unfold rxSb; split_ifs <;> rfl
  · unfold rxSbtt; split_ifs <;> rfl
  · unfold rxSbx; split_ifs <;> rfl
  · unfold rxSe; split_ifs <;> rfl
  · rfl

/-- Witness for c6_amended: the Will state swallows option byte 0. -/
theorem c6_amended_witness :
    (rx_telnet { init_telnet true (some vt100) with state := WILL } 0).2.2 = false :=
  c6_amended { init_telnet true (some vt100) with state := WILL } 0
    (by decide) (by decide)

/-- Claim C5: in the Will state the decoder returns to Ground, replies
nothing for SGA and ECHO, replies DONT BINARY iff the session is not
configured binary, and DONT for every other option; in the Do state it
returns to Ground, replies nothing for SGA, WONT BINARY iff not binary,
WONT TERMTYPE iff no terminal type is configured, and for NAWS either
WONT NAWS or (when window size negotiation was requested) sets donaws
and immediately emits the window size sub option. -/
theorem c5_will_do (ctx : Context) (c : Nat) (h : c < 256) :
    (rx_telnet { ctx with state := WILL } c).1.state = 0 ∧
    (rx_telnet { ctx with state := WILL } c).2.1 =
      (if c = SGA ∨ c = SECHO then []
       else if c = BINARY then (if ctx.binary then [] else [IAC, DONT, BINARY])
       else [IAC, DONT, c]) ∧
    (rx_telnet { ctx with state := DO } c).1.state = 0 ∧
    (rx_telnet { ctx with state := DO } c).2.1 =
      (if c = SGA then []
       else if c = BINARY then (if ctx.binary then [] else [IAC, WONT, BINARY])
       else if c = TTYPE then (if ctx.termtype.isSome then [] else [IAC, WONT, TTYPE])
       else if c = NAWS then
         (if ctx.willnaws then nawsBytes ctx else [IAC, WONT, NAWS])
       else [IAC, WONT, c]) ∧
    (rx_telnet { ctx with state := DO } c).1.donaws =
      (if c = NAWS ∧ ctx.willnaws = true then true else ctx.donaws) := by
  have e1 : rx_telnet { ctx with state := WILL } c = rxWill { ctx with state := WILL } c := by
    unfold rx_telnet
    simp [WILL, IAC, DO, DONT, WONT, SB, SBTT, SBX, SE]
  have e2 : rx_telnet { ctx with state := DO } c = rxDo { ctx with state := DO } c := by
    unfold rx_telnet
    simp [WILL, IAC, DO, DONT, WONT, SB, SBTT, SBX, SE]
  rw [e1, e2]
  unfold rxWill rxDo
  split_ifs <;> simp_all [nawsBytes, SGA, SECHO, BINARY, TTYPE, NAWS, IAC, DONT, WONT, SB, SE]

/-- Witness for c5_will_do at option byte 5 on a fresh binary session. -/
theorem c5_will_do_witness :
    (rx_telnet { init_telnet true (some vt100) with state := WILL } 5).1.state = 0 ∧
    (rx_telnet { init_telnet true (some vt100) with state := WILL } 5).2.1 =
      (if (5 : Nat) = SGA ∨ (5 : Nat) = SECHO then []
       else if (5 : Nat) = BINARY then
         (if (init_telnet true (some vt100)).binary then [] else [IAC, DONT, BINARY])
       else [IAC, DONT, 5]) ∧
    (rx_telnet { init_telnet true (some vt100) with state := DO } 5).1.state = 0 ∧
    (rx_telnet { init_telnet true (some vt100) with state := DO } 5).2.1 =
      (if (5 : Nat) = SGA then []
       else if (5 : Nat) = BINARY then
         (if (init_telnet true (some vt100)).binary then [] else [IAC, WONT, BINARY])
       else if (5 : Nat) = TTYPE then
         (if (init_telnet true (some vt100)).termtype.isSome then [] else [IAC, WONT, TTYPE])
       else if (5 : Nat) = NAWS then
         (if (init_telnet true (some vt100)).willnaws then nawsBytes (init_telnet true (some vt100))
          else [IAC, WONT, NAWS])
       else [IAC, WONT, 5]) ∧
    (rx_telnet { init_telnet true (some vt100) with state := DO } 5).1.donaws =
      (if (5 : Nat) = NAWS ∧ (init_telnet true (some vt100)).willnaws = true then true
       else (init_telnet true (some vt100)).donaws) :=
  c5_will_do (init_telnet true (some vt100)) 5 (by decide)

/-- Preservation lemma: once the initialized flag is set, no rx_telnet
call ever clears it. -/
lemma rx_initialized (ctx : Context) (c : Nat) (h : ctx.initialized = true) :
    (rx_telnet ctx c).1.initialized = true := by
  unfold rx_telnet
  split_ifs
  · simp only [rxGround]; split_ifs <;> simp_all
  · simp only [rxIac]; split_ifs <;> simp_all
  · simp only [rxWill]; split_ifs <;> simp_all
  · simp only [rxDo]; split_ifs <;> simp_all
  · simp_all
  · simp only [rxSb]; split_ifs <;> simp_all
  · simp only [rxSbtt]; split_ifs <;> simp_all
  · simp only [rxSbx]; split_ifs <;> simp_all
  · simp only [rxSe]; split_ifs <;> simp_all
  · simp_all

/-- Counter of executions of the one time initialization block of
rx_telnet over an input stream: the block runs when the state is IAC,
the byte is not the escaped IAC, and the initialized flag is clear. -/
def initSends (ctx : Context) : List Nat → Nat
  | [] => 0
  | c :: rest =>
      (if ctx.state = IAC ∧ c ≠ IAC ∧ ctx.initialized = false then 1 else 0)
        + initSends (rx_telnet ctx c).1 rest

/-- Once initialized, the initialization block never runs again. -/
lemma initSends_initialized :
    ∀ (l : List Nat) (ctx : Context), ctx.initialized = true → initSends ctx l = 0 := by
  intro l
  induction l with
  | nil => intro ctx _; rfl
  | cons c rest ih =>
      intro ctx h
      unfold initSends
      rw [ih ((rx_telnet ctx c).1) (rx_initialized ctx c h)]
      simp [h]

/-- Computation lemma: in the IAC state with the initialized flag
clear, any byte other than the escaped IAC emits the initialization
batch and sets the initialized flag. -/
lemma rx_iac_uninit_eq (ctx : Context) (c : Nat) (hs : ctx.state = IAC)
    (hi : ctx.initialized = false) (hc : c ≠ IAC) :
    rx_telnet ctx c =
      ({ (if c = SB ∨ c = WILL ∨ c = WONT ∨ c = DO ∨ c = DONT then
            { ctx with state := c } else { ctx with state := 0 }) with initialized := true },
        initBatch ctx, false) := by
  have hc2 : ¬ c = 255 := by simpa [IAC] using hc
  unfold rx_telnet rxIac
  simp [hs, hi, hc2, IAC]

/-- The context of a fresh binary vt100 session after receiving one IAC
byte: only the state field has changed. -/
def iacFreshBinVt : Context :=
  { binary := true, termtype := some vt100, initialized := false,
    state := IAC, wascr := false, willnaws := false, donaws := false,
    hicols := 0, locols := 0, hirows := 0, lorows := 0 }

/-- Counterexample to claim C4: feeding the two byte sequence IAC IAC
(command byte 0xFF) into a fresh binary vt100 session emits nothing at
all, not the initialization batch. -/
theorem c4_counterexample :
    (rx_run (init_telnet true (some vt100)) [IAC, IAC]).2.1 = [] ∧
    (rx_run (init_telnet true (some vt100)) [IAC, IAC]).2.1 ≠
      [IAC, DO, SGA, IAC, WILL, SGA, IAC, WILL, TTYPE, IAC, DO, SECHO,
       IAC, DO, BINARY, IAC, WILL, BINARY] := by
  decide

/-- Claim C4 amended: for every command byte other than IAC (0xFF),
feeding IAC followed by that byte into a fresh binary vt100 session
emits exactly IAC DO SGA, IAC WILL SGA, IAC WILL TERMTYPE, IAC DO ECHO,
IAC DO BINARY, IAC WILL BINARY, and over any continuation of the input
stream the initialization block runs exactly once.  (IAC IAC is the
escape for a literal data byte and does not trigger initialization.) -/
theorem c4_amended (c : Nat) (h1 : c < 256) (h2 : c ≠ IAC) (rest : List Nat) :
    (rx_run (init_telnet true (some vt100)) [IAC, c]).2.1 =
      [IAC, DO, SGA, IAC, WILL, SGA, IAC, WILL, TTYPE, IAC, DO, SECHO,
       IAC, DO, BINARY, IAC, WILL, BINARY] ∧
    initSends (init_telnet true (some vt100)) (IAC :: c :: rest) = 1 := by
  have hstep1 : rx_telnet (init_telnet true (some vt100)) IAC = (iacFreshBinVt, [], false) := rfl
  have hstep2 := rx_iac_uninit_eq iacFreshBinVt c rfl rfl h2
  have hz := initSends_initialized rest ((rx_telnet iacFreshBinVt c).1) (by rw [hstep2])
  constructor
  · simp only [rx_run, hstep1, hstep2]
    decide
  · simp only [initSends, hstep1, hz]
    simp [h2, init_telnet, iacFreshBinVt]

/-- Witness for c4_amended at command byte WILL (251) with two further
bytes arriving afterwards. -/
theorem c4_amended_witness :
    (rx_run (init_telnet true (some vt100)) [IAC, 251]).2.1 =
      [IAC, DO, SGA, IAC, WILL, SGA, IAC, WILL, TTYPE, IAC, DO, SECHO,
       IAC, DO, BINARY, IAC, WILL, BINARY] ∧
    initSends (init_telnet true (some vt100)) (IAC :: 251 :: [IAC, DO]) = 1 :=
  c4_amended 251 (by decide) (by decide) [IAC, DO]

/-- Claim C8: a window size update of cols 70000, rows 0 on a session
where window size negotiation was requested and the server accepted DO
NAWS clamps to cols 65535 and rows 2 and emits the NAWS sub option with
the two 0xFF payload bytes doubled. -/
theorem c8_naws_clamp (ctx : Context) (h1 : ctx.willnaws = true) (h2 : ctx.donaws = true) :
    (resize_telnet ctx 70000 0).1.hicols = 255 ∧
    (resize_telnet ctx 70000 0).1.locols = 255 ∧
    (resize_telnet ctx 70000 0).1.hirows = 0 ∧
    (resize_telnet ctx 70000 0).1.lorows = 2 ∧
    (resize_telnet ctx 70000 0).2 = [IAC, SB, NAWS, IAC, IAC, IAC, IAC, 0, 2, IAC, SE] := by
  unfold resize_telnet
  norm_num [h1, h2, nawsBytes, IAC, SB, NAWS, SE]
  decide

/-- Witness for c8_naws_clamp on a concrete session. -/
theorem c8_naws_clamp_witness :
    (resize_telnet { init_telnet false none with willnaws := true, donaws := true } 70000 0).1.hicols = 255 ∧
    (resize_telnet { init_telnet false none with willnaws := true, donaws := true } 70000 0).1.locols = 255 ∧
    (resize_telnet { init_telnet false none with willnaws := true, donaws := true } 70000 0).1.hirows = 0 ∧
    (resize_telnet { init_telnet false none with willnaws := true, donaws := true } 70000 0).1.lorows = 2 ∧
    (resize_telnet { init_telnet false none with willnaws := true, donaws := true } 70000 0).2 =
      [IAC, SB, NAWS, IAC, IAC, IAC, IAC, 0, 2, IAC, SE] :=
  c8_naws_clamp { init_telnet false none with willnaws := true, donaws := true } rfl rfl

/-- Byte queue from nanocom.c: growable circular buffer.  The C struct
fields head, count, size are nonnegative ints, modeled as Nat; the data
pointer becomes a total function from indices to byte values (contents
past the allocated region are arbitrary; realloc keeps the contents of
indices below the old size in place and is modeled as keeping the data
function unchanged). -/
structure Queue where
  head : Nat
  count : Nat
  size : Nat
  data : Nat → Nat

/-- Embedding of the doubling loop of putq: while size is at most
target, double it.  The C loop is a while loop; fuel target + 1 bounds
its iteration count whenever the starting size is positive, which putq
guarantees (it replaces a zero size by 1024 first). -/
def growAux : Nat → Nat → Nat → Nat
  | 0, size, _ => size
  | fuel + 1, size, target => if size ≤ target then growAux fuel (size * 2) target else size

/-- The doubling loop with sufficient fuel. -/
def grow (size target : Nat) : Nat := growAux (target + 1) size target

/-- With enough fuel the doubling loop exceeds the target. -/
lemma growAux_gt : ∀ (fuel size target : Nat), target < 2 ^ fuel * size →
    target < growAux fuel size target := by
  intro fuel
  induction fuel with
  | zero => intro size target hp; simpa using hp
  | succ n ih =>
      intro size target hp
      simp only [growAux]
      split_ifs with hle
      · refine ih (size * 2) target ?_
        calc target < 2 ^ (n + 1) * size := hp
          _ = 2 ^ n * (size * 2) := by ring
      · omega

/-- The grown size strictly exceeds the target when the starting size
is positive. -/
lemma grow_gt (size target : Nat) (h : 0 < size) : target < grow size target := by
  refine growAux_gt (target + 1) size target ?_
  calc target < 2 ^ target := Nat.lt_two_pow target
    _ ≤ 2 ^ (target + 1) := Nat.pow_le_pow_right (by omega) (by omega)
    _ ≤ 2 ^ (target + 1) * size := Nat.le_mul_of_pos_right _ h

/-- One iteration of the write loop of putq: store the byte at index
(head + count) mod size and bump count. -/
def qwrite (q : Queue) (d : Nat) : Queue :=
  { q with data := fun i => if i = (q.head + q.count) % q.size then d else q.data i,
           count := q.count + 1 }

/-- The write loop of putq over a byte list. -/
def writeAll (q : Queue) (ds : List Nat) : Queue := List.foldl qwrite q ds

/-- Embedding of putq from nanocom.c: grow the buffer by doubling
(starting from 1024 on first use) while size is at most count plus the
number of new bytes, then write the bytes at (head + count) mod size. -/
def putq (q : Queue) (ds : List Nat) : Queue :=
  writeAll
    (if q.size ≤ q.count + ds.length then
      { q with size := grow (if q.size = 0 then 1024 else q.size) (q.count + ds.length) }
     else q)
    ds

/-- Embedding of getq from nanocom.c: the start index and length of the
contiguous chunk at the front of the queue, or none if empty. -/
def getq (q : Queue) : Option (Nat × Nat) :=
  if q.count = 0 then none
  else some (q.head, min (q.size - q.head) q.count)

/-- Embedding of delq from nanocom.c: remove n bytes from the front;
n = 0 is a no-op, n negative or at least count clears the queue and
resets head to 0. -/
def delq (q : Queue) (n : Int) : Queue :=
  if n = 0 then q
  else if n < 0 ∨ (q.count : Int) ≤ n then { q with count := 0, head := 0 }
  else { q with count := q.count - n.toNat, head := (q.head + n.toNat) % q.size }

/-- A queue operation: put some bytes or drop n. -/
inductive QOp where
  | put : List Nat → QOp
  | del : Int → QOp

/-- Apply one queue operation. -/
def applyOp (q : Queue) : QOp → Queue
  | QOp.put ds => putq q ds
  | QOp.del n => delq q n

/-- The zero initialized queue (queue qtarget = {0} in nanocom.c). -/
def emptyQueue : Queue := { head := 0, count := 0, size := 0, data := fun _ => 0 }

/-- Run a sequence of queue operations from the initial queue. -/
def runOps (ops : List QOp) : Queue := List.foldl applyOp emptyQueue ops

/-- Reachable-state invariant of the byte queue: count within capacity
and head reset whenever the queue is empty. -/
def QInv (q : Queue) : Prop := q.count ≤ q.size ∧ (q.count = 0 → q.head = 0)

/-- The write loop does not change head. -/
lemma writeAll_head : ∀ (ds : List Nat) (q : Queue), (writeAll q ds).head = q.head := by
  intro ds
  induction ds with
  | nil => intro q; rfl
  | cons d rest ih => intro q; simpa [writeAll, qwrite] using ih (qwrite q d)

/-- The write loop does not change size. -/
lemma writeAll_size : ∀ (ds : List Nat) (q : Queue), (writeAll q ds).size = q.size := by
  intro ds
  induction ds with
  | nil => intro q; rfl
  | cons d rest ih => intro q; simpa [writeAll, qwrite] using ih (qwrite q d)

/-- The write loop adds exactly the written length to count. -/
lemma writeAll_count : ∀ (ds : List Nat) (q : Queue),
    (writeAll q ds).count = q.count + ds.length := by
  intro ds
  induction ds with
  | nil => intro q; rfl
  | cons d rest ih =>
      intro q
      have := ih (qwrite q d)
      simp only [writeAll, List.foldl_cons] at this ⊢
      rw [this]
      simp [qwrite]
      omega

/-- putq preserves the queue invariant. -/
lemma putq_inv (q : Queue) (ds : List Nat) (h : QInv q) : QInv (putq q ds) := by
  obtain ⟨hcs, hh⟩ := h
  by_cases hg : q.size ≤ q.count + ds.length
  · unfold putq
    rw [if_pos hg]
    constructor
    · rw [writeAll_count, writeAll_size]
      dsimp only
      have hpos : 0 < (if q.size = 0 then 1024 else q.size) := by split_ifs <;> omega
      have hgt := grow_gt (if q.size = 0 then 1024 else q.size) (q.count + ds.length) hpos
      omega
    · intro hc
      rw [writeAll_count] at hc
      rw [writeAll_head]
      dsimp only at hc ⊢
      exact hh (by omega)
  · unfold putq
    rw [if_neg hg]
    constructor
    · rw [writeAll_count, writeAll_size]
      omega
    · intro hc
      rw [writeAll_count] at hc
      rw [writeAll_head]
      exact hh (by omega)

/-- delq preserves the queue invariant. -/
lemma delq_inv (q : Queue) (n : Int) (h : QInv q) : QInv (delq q n) := by
  obtain ⟨hcs, hh⟩ := h
  unfold delq
  split_ifs with h0 h1
  · exact ⟨hcs, hh⟩
  · exact ⟨Nat.zero_le _, fun _ => rfl⟩
  · constructor
    · exact le_trans (Nat.sub_le _ _) hcs
    · intro hc
      exfalso
      have hc2 : q.count - n.toNat = 0 := hc
      push_neg at h1
      omega

/-- Every sequence of put and drop operations preserves the invariant. -/
lemma foldl_inv : ∀ (ops : List QOp) (q : Queue), QInv q → QInv (List.foldl applyOp q ops) := by
  intro ops
  induction ops with
  | nil => intro q h; exact h
  | cons op rest ih =>
      intro q h
      cases op with
      | put ds => exact ih (putq q ds) (putq_inv q ds h)
      | del n => exact ih (delq q n) (delq_inv q n h)

/-- Every reachable queue satisfies the invariant. -/
lemma runOps_inv (ops : List QOp) : QInv (runOps ops) :=
  foldl_inv ops emptyQueue ⟨Nat.le_refl 0, fun _ => rfl⟩

/-- Claim C2: after any interleaving of put and drop operations,
count stays within capacity (count is a Nat, so nonnegative by type),
and a drop of n with n negative or n at least count leaves the queue
with head 0 and count 0. -/
theorem c2_queue_invariant (ops : List QOp) :
    (runOps ops).count ≤ (runOps ops).size ∧
    ∀ n : Int, (n < 0 ∨ ((runOps ops).count : Int) ≤ n) →
      (delq (runOps ops) n).head = 0 ∧ (delq (runOps ops) n).count = 0 := by
  obtain ⟨hcs, hh⟩ := runOps_inv ops
  refine ⟨hcs, ?_⟩
  intro n hn
  unfold delq
  split_ifs with h0
  · subst h0
    have hc : (runOps ops).count = 0 := by omega
    exact ⟨hh hc, hc⟩
  · exact ⟨rfl, rfl⟩

/-- Witness for c2_queue_invariant: put three bytes, drop two, then a
drop of 5 (which is at least the remaining count 1) clears the queue. -/
theorem c2_queue_invariant_witness :
    (runOps [QOp.put [1, 2, 3], QOp.del 2]).count ≤ (runOps [QOp.put [1, 2, 3], QOp.del 2]).size ∧
    ((delq (runOps [QOp.put [1, 2, 3], QOp.del 2]) 5).head = 0 ∧
      (delq (runOps [QOp.put [1, 2, 3], QOp.del 2]) 5).count = 0) :=
  ⟨(c2_queue_invariant [QOp.put [1, 2, 3], QOp.del 2]).1,
    (c2_queue_invariant [QOp.put [1, 2, 3], QOp.del 2]).2 5 (by right; decide)⟩

/-- Placement predicate from the specification data model: the queue
holds exactly the byte list l, with logical byte i stored at
data ((head + i) mod size). -/
def placed (q : Queue) (l : List Nat) : Prop :=
  q.count = l.length ∧ ∀ i, i < l.length → q.data ((q.head + i) % q.size) = l.getD i 0

instance (q : Queue) (l : List Nat) : Decidable (placed q l) := by
  unfold placed
  infer_instance

/-- A wrapped queue: 1024 bytes of capacity, two queued bytes 1, 2 with
the run wrapping around the end of the buffer (byte 1 at index 1023,
byte 2 at index 0). -/
def qbad : Queue :=
  { head := 1023, count := 2, size := 1024,
    data := fun i => if i = 1023 then 1 else if i = 0 then 2 else 0 }

/-- qbad after the growth step of putq: same contents, size doubled. -/
def qbad2048 : Queue :=
  { head := 1023, count := 2, size := 2048,
    data := fun i => if i = 1023 then 1 else if i = 0 then 2 else 0 }

/-- Bytes written at indices outside the write range are untouched by
the write loop. -/
lemma writeAll_data_untouched : ∀ (ds : List Nat) (q : Queue) (i : Nat),
    (∀ k, k < ds.length → (q.head + (q.count + k)) % q.size ≠ i) →
    (writeAll q ds).data i = q.data i := by
  intro ds
  induction ds with
  | nil => intro q i _; rfl
  | cons d rest ih =>
      intro q i h
      have hstep : (writeAll q (d :: rest)) = writeAll (qwrite q d) rest := by
        simp [writeAll]
      rw [hstep]
      rw [ih (qwrite q d) i ?_]
      · have h0 := h 0 (by simp)
        simp only [Nat.add_zero] at h0
        simp only [qwrite]
        exact if_neg (fun he => h0 (he.symm))
      · intro k hk
        have h1 := h (k + 1) (by simp; omega)
        have e : (qwrite q d).head + ((qwrite q d).count + k)
            = q.head + (q.count + (k + 1)) := by
          simp [qwrite]; omega
        rw [e]
        have e2 : (qwrite q d).size = q.size := rfl
        rw [e2]
        exact h1

/-- Claim C3 refutation: growing the wrapped queue qbad by a put of
1022 bytes breaks the placement invariant.  Before the put, qbad holds
bytes 1, 2 placed correctly; after the put the capacity is 2048 and
logical byte 1 (value 2) is required at data ((1023 + 1) mod 2048) =
data 1024, but that cell was never written (realloc leaves it
arbitrary, modeled as the old data function, giving 0), while the
stored run still has byte 2 at index 0. -/
theorem c3_violation :
    placed qbad [1, 2] ∧
    (putq qbad (List.replicate 1022 7)).size = 2048 ∧
    (putq qbad (List.replicate 1022 7)).head = 1023 ∧
    (putq qbad (List.replicate 1022 7)).count = 1024 ∧
    (putq qbad (List.replicate 1022 7)).data ((1023 + 1) % 2048) = 0 ∧
    ¬ placed (putq qbad (List.replicate 1022 7)) ([1, 2] ++ List.replicate 1022 7) := by
  have hlenr : (List.replicate 1022 (7 : Nat)).length = 1022 := List.length_replicate 1022 7
  have hgrow2 : grow 1024 1024 = 2048 := by decide
  have hq1 : putq qbad (List.replicate 1022 7) = writeAll qbad2048 (List.replicate 1022 7) := by
    unfold putq
    have hcond : qbad.size ≤ qbad.count + (List.replicate 1022 (7 : Nat)).length := by
      rw [hlenr]; decide
    rw [if_pos hcond]
    have hgrow : grow (if qbad.size = 0 then 1024 else qbad.size)
        (qbad.count + (List.replicate 1022 (7 : Nat)).length) = 2048 := by
      rw [hlenr]
      simpa [qbad] using hgrow2
    rw [hgrow]
    rfl
  have hdata : (writeAll qbad2048 (List.replicate 1022 7)).data 1024 = 0 := by
    rw [writeAll_data_untouched (List.replicate 1022 7) qbad2048 1024 ?_]
    · rfl
    · intro k hk
      simp only [List.length_replicate] at hk
      have e : qbad2048.head + (qbad2048.count + k) = 1025 + k := by
        simp [qbad2048]; omega
      rw [e]
      have e2 : qbad2048.size = 2048 := rfl
      rw [e2]
      rw [Nat.mod_eq_of_lt (by omega)]
      omega
  refine ⟨by decide, ?_, ?_, ?_, ?_, ?_⟩
  · rw [hq1, writeAll_size]
    rfl
  · rw [hq1, writeAll_head]
    rfl
  · rw [hq1, writeAll_count, hlenr]
    rfl
  · rw [hq1]
    have e4 : (1023 + 1) % 2048 = 1024 := by norm_num
    rw [e4]
    exact hdata
  · rw [hq1]
    intro hp
    have hlen : ([1, 2] ++ List.replicate 1022 (7 : Nat)).length = 1024 := by
      rw [List.length_append, hlenr]
      rfl
    have h1 := hp.2 1 (by rw [hlen]; omega)
    rw [writeAll_head] at h1
    rw [writeAll_size] at h1
    have e3 : (qbad2048.head + 1) % qbad2048.size = 1024 := by decide
    rw [e3] at h1
    rw [hdata] at h1
    have e5 : ([1, 2] ++ List.replicate 1022 (7 : Nat)).getD 1 0 = 2 := rfl
    rw [e5] at h1
    exact absurd h1 (by decide)

/-- Modeled from part_004 doconnect, success path: after connecting,
the egress queue is wiped (delq with -1) and the telnet session is
rebuilt from scratch by init_telnet (the old context is freed). -/
def doconnectReset (q : Queue) (binary : Bool) (termtype : Option (List Nat)) :
    Queue × Context :=
  (delq q (-1), init_telnet binary termtype)

/-- Claim C9: after a successful connect or reconnect the egress queue
is empty (getq yields nothing, so no pre-reconnect byte can be written
to the new connection) and the telnet session is back in its initial
state: Ground, initialization batch not yet sent, CR pending flag
clear. -/
theorem c9_reconnect_reset (q : Queue) (b : Bool) (t : Option (List Nat)) :
    (doconnectReset q b t).1.count = 0 ∧
    (doconnectReset q b t).1.head = 0 ∧
    getq (doconnectReset q b t).1 = none ∧
    (doconnectReset q b t).2.state = 0 ∧
    (doconnectReset q b t).2.initialized = false ∧
    (doconnectReset q b t).2.wascr = false := by
  unfold doconnectReset delq getq init_telnet
  norm_num

end Nanocom
